import Mathlib

/-!
Verification of the React-Hooks-Studio repository specification.

Shallow embedding of the stateful pieces of the application:
the render-instrumentation registry (module-level renderCounts map in
RenderCounter), the theme context (ThemeContext.tsx), the timer demo
effect (useEffectPlayground.tsx), the router table, and the two
useReducer demo reducers (counterReducer, todoReducer in
useContextPlayground.tsx).
-/

namespace HookStudio

/-! ## Render instrumentation registry

Embeds the module-level map `renderCounts : Map<string, number>` and the
render-time read-increment-write performed by RenderCounter and
InlineRenderCounter:

    const currentCount = (renderCounts.get(id) ?? 0) + 1;
    renderCounts.set(id, currentCount);

The registry is modelled as a partial map from identity strings to counts.
-/

/-- The registry state: the renderCounts map, absent keys give none. -/
def Registry := String → Option Nat

/-- The empty registry: the initial module-level Map. -/
def emptyRegistry : Registry := fun _ => none

/-- The observe operation of the registry, as executed on each render of a
counter component: read the count (defaulting a missing entry to 0), add 1,
store it back, and return the new count together with the updated map. -/
def observe (m : Registry) (id : String) : Nat × Registry :=
  let currentCount := (m id).getD 0 + 1
  (currentCount, fun k => if k = id then some currentCount else m k)

/-- Run a whole trace of renders: each element of the trace is the identity
of the unit rendered at that point.  Returns the list of (identity, returned
count) pairs in order, and the final registry. -/
def runTrace (m : Registry) : List String → List (String × Nat) × Registry
  | [] => ([], m)
  | i :: rest =>
      let p := observe m i
      let r := runTrace p.2 rest
      ((i, p.1) :: r.1, r.2)

/-- The counts returned to one fixed identity over a trace, in order. -/
def returnsFor (m : Registry) (t : List String) (id : String) : List Nat :=
  ((runTrace m t).1.filter (fun p => p.1 = id)).map (fun p => p.2)

theorem observe_fst (m : Registry) (id : String) :
    (observe m id).1 = (m id).getD 0 + 1 := rfl

theorem observe_snd_self (m : Registry) (id : String) :
    (observe m id).2 id = some ((m id).getD 0 + 1) := by
  simp [observe]

theorem observe_snd_other (m : Registry) (id k : String) (h : k ≠ id) :
    (observe m id).2 k = m k := by
  simp [observe, h]

/-- Generalised trace lemma: if the stored count of `id` is `c` (0 when
absent), then over any trace the values returned to `id` are
`c+1, c+2, ...`, and the final stored count is `c` plus the number of
renders of `id` in the trace. -/
theorem runTrace_spec (t : List String) :
    ∀ (m : Registry) (id : String) (c : Nat), (m id).getD 0 = c →
      returnsFor m t id = List.range' (c + 1) (t.count id) ∧
      ((runTrace m t).2 id).getD 0 = c + t.count id := by
  induction t with
  | nil =>
      intro m id c hc
      simp [returnsFor, runTrace, hc]
  | cons i rest ih =>
      intro m id c hc
      by_cases hid : i = id
      · subst hid
        have hnext : ((observe m i).2 i).getD 0 = c + 1 := by
          simp [observe, hc]
        have h := ih (observe m i).2 i (c + 1) hnext
        have hobs : (observe m i).1 = c + 1 := by simp [observe, hc]
        refine ⟨?_, ?_⟩
        · simp only [returnsFor, runTrace] at h ⊢
          simp [hobs, h.1, List.count_cons, List.range'_succ]
        · simp only [runTrace]
          rw [h.2]
          simp [List.count_cons]
          omega
      · have hkeep : ((observe m i).2 id).getD 0 = c := by
          simp [observe, Ne.symm hid, hc]
        have h := ih (observe m i).2 id c hkeep
        refine ⟨?_, ?_⟩
        · simp only [returnsFor, runTrace] at h ⊢
          simp [hid, h.1, List.count_cons]
        · simp only [runTrace]
          rw [h.2]
          simp [List.count_cons, hid]

/-- Auxiliary: counts never shrink along a trace, and an identity that is
rendered at least once in the trace ends up present with a positive count. -/
theorem runTrace_persist (t : List String) :
    ∀ (m : Registry) (k : String),
      (∀ c, m k = some c → ∃ c', (runTrace m t).2 k = some c' ∧ c ≤ c') ∧
      (k ∈ t → ∃ c', (runTrace m t).2 k = some c' ∧ 1 ≤ c') := by
  induction t with
  | nil =>
      intro m k
      refine ⟨fun c hc => ⟨c, by simpa [runTrace] using hc, le_refl c⟩, ?_⟩
      intro hk
      simp at hk
  | cons i rest ih =>
      intro m k
      by_cases hk : k = i
      · subst hk
        have hstep : (observe m k).2 k = some ((m k).getD 0 + 1) := by
          simp [observe]
        refine ⟨?_, ?_⟩
        · intro c hc
          obtain ⟨c', hc', hle⟩ :=
            (ih (observe m k).2 k).1 ((m k).getD 0 + 1) hstep
          exact ⟨c', by simpa [runTrace] using hc', by
            simp [hc] at hle ⊢; omega⟩
        · intro _
          obtain ⟨c', hc', hle⟩ :=
            (ih (observe m k).2 k).1 ((m k).getD 0 + 1) hstep
          exact ⟨c', by simpa [runTrace] using hc', by omega⟩
      · have hstep : (observe m i).2 k = m k := by
          simp [observe, hk]
        refine ⟨?_, ?_⟩
        · intro c hc
          obtain ⟨c', hc', hle⟩ := (ih (observe m i).2 k).1 c (hstep ▸ hc)
          exact ⟨c', by simpa [runTrace] using hc', hle⟩
        · intro hmem
          have hrest : k ∈ rest := by
            rcases List.mem_cons.mp hmem with h | h
            · exact absurd h hk
            · exact h
          obtain ⟨c', hc', hle⟩ := (ih (observe m i).2 k).2 hrest
          exact ⟨c', by simpa [runTrace] using hc', hle⟩

/-- C1: a render-time observe creates the entry at 1 when the identity is
absent, otherwise increments the stored count by exactly 1, and returns the
new count; over any trace of renders the values returned to one fixed
identity (starting absent) are exactly 1, 2, 3, ... -/
theorem observe_returns_strictly_increasing
    (m : Registry) (id : String) (t : List String) (habs : m id = none) :
    (observe m id).1 = 1 ∧
    (observe m id).2 id = some 1 ∧
    (∀ (n : Registry) (c : Nat), n id = some c →
        (observe n id).1 = c + 1 ∧ (observe n id).2 id = some (c + 1)) ∧
    returnsFor m t id = List.range' 1 (t.count id) := by
  refine ⟨by simp [observe, habs], by simp [observe, habs], ?_, ?_⟩
  · intro n c hc
    exact ⟨by simp [observe, hc], by simp [observe, hc]⟩
  · have h := (runTrace_spec t m id 0 (by simp [habs])).1
    simpa using h

theorem observe_returns_strictly_increasing_witness :
    emptyRegistry "a" = none ∧
    returnsFor emptyRegistry ["a", "b", "a", "a"] "a" = [1, 2, 3] :=
  ⟨rfl,
   ((observe_returns_strictly_increasing emptyRegistry "a"
      ["a", "b", "a", "a"] rfl).2.2.2).trans (by decide)⟩

/-- C2: observing one identity leaves the stored count of any other
identity unchanged. -/
theorem observe_frame (m : Registry) (id1 id2 : String) (h : id1 ≠ id2) :
    (observe m id1).2 id2 = m id2 := by
  simp [observe, Ne.symm h]

theorem observe_frame_witness :
    (observe emptyRegistry "a").2 "b" = emptyRegistry "b" :=
  observe_frame emptyRegistry "a" "b" (by decide)

/-- C3: no observe operation removes an entry: along any trace an entry
that is present stays present (its count never decreases), and an identity
that gets observed is present afterwards with a positive count. -/
theorem registry_entries_persist (m : Registry) (t : List String) (k : String) :
    (∀ c, m k = some c → ∃ c', (runTrace m t).2 k = some c' ∧ c ≤ c') ∧
    (k ∈ t → ∃ c', (runTrace m t).2 k = some c' ∧ 0 < c') := by
  refine ⟨(runTrace_persist t m k).1, ?_⟩
  intro hk
  obtain ⟨c', hc', hle⟩ := (runTrace_persist t m k).2 hk
  exact ⟨c', hc', hle⟩

theorem registry_entries_persist_witness :
    (∃ c', (runTrace (observe emptyRegistry "a").2 ["b"]).2 "a" = some c' ∧ 1 ≤ c') ∧
    (∃ c, (runTrace emptyRegistry ["b", "a"]).2 "a" = some c ∧ 0 < c) :=
  ⟨(registry_entries_persist (observe emptyRegistry "a").2 ["b"] "a").1 1 rfl,
   (registry_entries_persist emptyRegistry ["b", "a"] "a").2 (by decide)⟩

/-! ## Theme context (src/context/ThemeContext.tsx)

The Theme type is the union `light | dark` from src/types/index.ts.
The provider holds the current theme in component state; a `useEffect`
keyed on the theme writes it to localStorage under THEME_STORAGE_KEY after
every theme change (and on mount).  The storage cell for that single key is
modelled as an `Option Theme`.
-/

inductive Theme where
  | light
  | dark
deriving DecidableEq, Repr

/-- The toggleTheme callback: `prev === 'light' ? 'dark' : 'light'`. -/
def toggleTheme (prev : Theme) : Theme :=
  if prev = Theme.light then Theme.dark else Theme.light

/-- Embeds getInitialTheme.  Parameters: whether `window` is defined, the
string stored under THEME_STORAGE_KEY (none when absent), and the result of
the `prefers-color-scheme: dark` media query. -/
def getInitialTheme (windowDefined : Bool) (storedTheme : Option String)
    (prefersDark : Bool) : Theme :=
  if windowDefined = false then Theme.light
  else if storedTheme = some "light" then Theme.light
  else if storedTheme = some "dark" then Theme.dark
  else if prefersDark then Theme.dark else Theme.light

/-- The context payload handed to consumers.  The toggleTheme / setTheme
callback fields of ThemeContextValue close over the provider state and are
modelled by the transition functions on ProviderState below; the data field
is the current theme. -/
structure ThemeContextValue where
  theme : Theme
deriving DecidableEq, Repr

/-- Embeds useTheme: `useContext` yields undefined (none) outside a
provider, in which case the hook throws; otherwise it returns the context
value unchanged. -/
def useTheme (context : Option ThemeContextValue) : Except String ThemeContextValue :=
  match context with
  | none => Except.error "useTheme must be used within a ThemeProvider"
  | some v => Except.ok v

/-- Provider state: the theme held in useState plus the persisted storage
cell for THEME_STORAGE_KEY. -/
structure ProviderState where
  theme : Theme
  storedTheme : Option Theme
deriving DecidableEq, Repr

/-- The operations a consumer can invoke on the provider. -/
inductive ThemeOp where
  | toggle
  | set (t : Theme)
deriving DecidableEq, Repr

def applyThemeOp (t : Theme) : ThemeOp → Theme
  | ThemeOp.toggle => toggleTheme t
  | ThemeOp.set t' => t'

/-- The persistence effect keyed on [theme]: writes the current theme to
storage. -/
def persistEffect (s : ProviderState) : ProviderState :=
  { s with storedTheme := some s.theme }

/-- One provider step: run the state update, then the effect fires. -/
def providerStep (s : ProviderState) (op : ThemeOp) : ProviderState :=
  persistEffect { s with theme := applyThemeOp s.theme op }

/-- Mounting the provider: initial theme in state, then the effect fires
for the first render. -/
def providerMount (initial : Theme) (stored0 : Option Theme) : ProviderState :=
  persistEffect { theme := initial, storedTheme := stored0 }

theorem providerStep_persists (s : ProviderState) (op : ThemeOp) :
    (providerStep s op).storedTheme = some (providerStep s op).theme := rfl

theorem providerRun_persists (ops : List ThemeOp) :
    ∀ s : ProviderState,
      (ops.foldl providerStep s).storedTheme = some ((ops.foldl providerStep s).theme) ∨
      ops = [] := by
  induction ops with
  | nil => intro s; exact Or.inr rfl
  | cons op rest ih =>
      intro s
      left
      cases ih (providerStep s op) with
      | inl h => simpa using h
      | inr h =>
          subst h
          simpa using providerStep_persists s op

/-- C5: toggling is an involution on the theme, and after mounting the
provider and running any sequence of toggle / set operations the persisted
storage key holds exactly the current (last-set) theme value. -/
theorem theme_toggle_involution_and_persistence :
    (∀ t : Theme, toggleTheme (toggleTheme t) = t) ∧
    (∀ (initial : Theme) (stored0 : Option Theme) (ops : List ThemeOp),
      (ops.foldl providerStep (providerMount initial stored0)).storedTheme =
        some ((ops.foldl providerStep (providerMount initial stored0)).theme)) := by
  constructor
  · intro t; cases t <;> rfl
  · intro initial stored0 ops
    cases providerRun_persists ops (providerMount initial stored0) with
    | inl h => exact h
    | inr h => subst h; rfl

/-- C6: useTheme raises exactly when the context value is undefined (it is
used outside a ThemeProvider) and otherwise returns the context value
unchanged, never silently defaulting. -/
theorem useTheme_throws_iff_outside :
    useTheme none = Except.error "useTheme must be used within a ThemeProvider" ∧
    (∀ v : ThemeContextValue, useTheme (some v) = Except.ok v) ∧
    (∀ ctx : Option ThemeContextValue, (∃ e, useTheme ctx = Except.error e) ↔ ctx = none) := by
  refine ⟨rfl, fun v => rfl, ?_⟩
  intro ctx
  cases ctx with
  | none => exact ⟨fun _ => rfl, fun _ => ⟨_, rfl⟩⟩
  | some v =>
      constructor
      · rintro ⟨e, he⟩
        simp [useTheme] at he
      · intro h
        simp at h

/-- C7: theme initialisation (in the browser) returns the stored value when
it is the string light or dark, and falls back to the OS preference when
the key is absent: dark when the system prefers dark, light otherwise. -/
theorem getInitialTheme_spec :
    (∀ p : Bool, getInitialTheme true (some "light") p = Theme.light) ∧
    (∀ p : Bool, getInitialTheme true (some "dark") p = Theme.dark) ∧
    (∀ p : Bool, getInitialTheme true none p =
      if p then Theme.dark else Theme.light) := by
  refine ⟨?_, ?_, ?_⟩ <;> intro p <;> cases p <;> rfl

/-! ## Timer demo (src/hooks/useEffectPlayground.tsx)

State: `seconds` and `isRunning` from useState, plus whether the interval
scheduled by the effect is currently live and whether the component is
mounted.  The effect keyed on [isRunning] clears any previous interval
(cleanup) and schedules a new one exactly when isRunning is true; unmount
runs the cleanup as well.  A tick is the interval callback firing
`setSeconds(prev => prev + 1)`; it can only fire while an interval is
scheduled.
-/

structure TimerState where
  seconds : Nat
  isRunning : Bool
  intervalActive : Bool
  mounted : Bool
deriving DecidableEq, Repr

inductive TimerEvent where
  | toggle
  | tick
  | reset
  | unmount
deriving DecidableEq, Repr

/-- Resynchronise the effect after a render where isRunning may have
changed: the cleanup clears the old interval and the effect body schedules
a new one iff isRunning holds. -/
def syncTimerEffect (s : TimerState) : TimerState :=
  if s.mounted then { s with intervalActive := s.isRunning } else s

def timerStep (s : TimerState) : TimerEvent → TimerState
  | TimerEvent.toggle =>
      if s.mounted then syncTimerEffect { s with isRunning := !s.isRunning } else s
  | TimerEvent.tick =>
      if s.intervalActive then { s with seconds := s.seconds + 1 } else s
  | TimerEvent.reset =>
      if s.mounted then syncTimerEffect { s with seconds := 0, isRunning := false } else s
  | TimerEvent.unmount =>
      { s with mounted := false, intervalActive := false }

def timerInit : TimerState :=
  { seconds := 0, isRunning := false, intervalActive := false, mounted := true }

def applyEvents (s : TimerState) (es : List TimerEvent) : TimerState :=
  es.foldl timerStep s

/-- padStart(2, "0") on a rendered number. -/
def padStart2 (s : String) : String :=
  String.mk (List.replicate (2 - s.length) '0') ++ s

/-- The displayed elapsed value:
`String(Math.floor(seconds / 60)).padStart(2, "0") ++ ":" ++ String(seconds % 60).padStart(2, "0")`. -/
def formatTime (seconds : Nat) : String :=
  padStart2 (toString (seconds / 60)) ++ ":" ++ padStart2 (toString (seconds % 60))

/-- The C4 scenario: start, three ticks, stop. -/
def timerScenarioStop : TimerState :=
  applyEvents timerInit
    [TimerEvent.toggle, TimerEvent.tick, TimerEvent.tick, TimerEvent.tick,
     TimerEvent.toggle]

theorem ticks_noop (n : Nat) :
    ∀ s : TimerState, s.intervalActive = false →
      applyEvents s (List.replicate n TimerEvent.tick) = s := by
  induction n with
  | zero => intro s _; rfl
  | succ k ih =>
      intro s hs
      have hstep : timerStep s TimerEvent.tick = s := by
        simp [timerStep, hs]
      simpa [applyEvents, List.replicate_succ, hstep] using ih s hs

/-- C4: once the running flag is turned off (or the widget unmounted) the
interval is cancelled, so no later tick changes the elapsed seconds; in the
start / three ticks / stop scenario the display stays at 00:03 forever. -/
theorem timer_stop_stable :
    (∀ s : TimerState, s.intervalActive = false → timerStep s TimerEvent.tick = s) ∧
    (∀ s : TimerState, (timerStep s TimerEvent.unmount).intervalActive = false) ∧
    (∀ s : TimerState, s.mounted = true → s.isRunning = true →
      (timerStep s TimerEvent.toggle).intervalActive = false) ∧
    timerScenarioStop.seconds = 3 ∧
    formatTime timerScenarioStop.seconds = "00:03" ∧
    (∀ n : Nat,
      applyEvents timerScenarioStop (List.replicate n TimerEvent.tick) =
        timerScenarioStop) := by
  refine ⟨?_, ?_, ?_, ?_, ?_, ?_⟩
  · intro s hs; simp [timerStep, hs]
  · intro s; simp [timerStep]
  · intro s hm hr; simp [timerStep, syncTimerEffect, hm, hr]
  · rfl
  · rfl
  · intro n
    exact ticks_noop n timerScenarioStop rfl

theorem timer_stop_stable_witness :
    timerStep { seconds := 3, isRunning := false, intervalActive := false, mounted := true }
        TimerEvent.tick =
      { seconds := 3, isRunning := false, intervalActive := false, mounted := true } ∧
    (timerStep { seconds := 3, isRunning := true, intervalActive := true, mounted := true }
        TimerEvent.toggle).intervalActive = false :=
  ⟨timer_stop_stable.1
      { seconds := 3, isRunning := false, intervalActive := false, mounted := true } rfl,
   timer_stop_stable.2.2.1
      { seconds := 3, isRunning := true, intervalActive := true, mounted := true } rfl rfl⟩

/-! ## Router (src/router.tsx)

The createBrowserRouter configuration mounts, under the root path, the
home page at the index route, one playground page per hook at
hooks/use-NAME, and a catch-all `*` route whose element navigates to the
root with replace.  The table below lists the full mount paths; matching a
URL path against the configuration is modelled by exact lookup in the
table, with the catch-all as fallback.
-/

inductive Page where
  | home
  | statePlayground
  | effectPlayground
  | reducerPlayground
  | refPlayground
  | memoPlayground
  | callbackPlayground
  | contextPlayground
  | redirect (target : String)
deriving DecidableEq, Repr

def routes : List (String × Page) :=
  [("/", Page.home),
   ("/hooks/use-state", Page.statePlayground),
   ("/hooks/use-effect", Page.effectPlayground),
   ("/hooks/use-reducer", Page.reducerPlayground),
   ("/hooks/use-ref", Page.refPlayground),
   ("/hooks/use-memo", Page.memoPlayground),
   ("/hooks/use-callback", Page.callbackPlayground),
   ("/hooks/use-context", Page.contextPlayground)]

def matchPath (p : String) : Page :=
  match routes.find? (fun r => r.1 = p) with
  | some r => r.2
  | none => Page.redirect "/"

/-- C8: the navigation surface is the static table above (home plus one
path per hook), and every path outside it is sent by the catch-all route to
a redirect to the home path. -/
theorem router_static_catch_all :
    matchPath "/" = Page.home ∧
    matchPath "/hooks/use-state" = Page.statePlayground ∧
    matchPath "/hooks/use-effect" = Page.effectPlayground ∧
    matchPath "/hooks/use-reducer" = Page.reducerPlayground ∧
    matchPath "/hooks/use-ref" = Page.refPlayground ∧
    matchPath "/hooks/use-memo" = Page.memoPlayground ∧
    matchPath "/hooks/use-callback" = Page.callbackPlayground ∧
    matchPath "/hooks/use-context" = Page.contextPlayground ∧
    (∀ p : String, p ∉ routes.map Prod.fst → matchPath p = Page.redirect "/") := by
  refine ⟨rfl, rfl, rfl, rfl, rfl, rfl, rfl, rfl, ?_⟩
  intro p hp
  have hnone : routes.find? (fun r => r.1 = p) = none := by
    rw [List.find?_eq_none]
    intro x hx
    simp only [decide_eq_true_eq]
    intro hxp
    exact hp (hxp ▸ List.mem_map_of_mem Prod.fst hx)
  simp [matchPath, hnone]

theorem router_static_catch_all_witness :
    matchPath "/hooks/use-transition" = Page.redirect "/" :=
  router_static_catch_all.2.2.2.2.2.2.2.2 "/hooks/use-transition" (by decide)

/-! ## Counter reducer (src/hooks/useContextPlayground.tsx, useReducer demo)

CounterState is `{ count : number, history : number[] }`; an action has a
string tag and an optional numeric payload (used only by SET, where a
missing payload defaults to 0 through `action.payload ?? 0`).  The switch
over `action.type` includes a default case returning the state unchanged.
-/

structure CounterState where
  count : Int
  history : List Int
deriving DecidableEq, Repr

structure CounterAction where
  type : String
  payload : Option Int := none
deriving DecidableEq, Repr

def counterInitialState : CounterState := { count := 0, history := [] }

def counterReducer (state : CounterState) (action : CounterAction) : CounterState :=
  if action.type = "INCREMENT" then
    { count := state.count + 1, history := state.history ++ [state.count + 1] }
  else if action.type = "DECREMENT" then
    { count := state.count - 1, history := state.history ++ [state.count - 1] }
  else if action.type = "RESET" then counterInitialState
  else if action.type = "SET" then
    { count := (action.payload).getD 0, history := state.history ++ [(action.payload).getD 0] }
  else state

/-- The history invariant: empty history, or its last entry is the current
count. -/
def counterInv (s : CounterState) : Prop :=
  s.history = [] ∨ s.history.getLast? = some s.count

theorem getLast?_append_singleton {α : Type} (l : List α) (a : α) :
    (l ++ [a]).getLast? = some a := by
  rw [List.getLast?_append_cons]
  rfl

theorem counterReducer_preserves (s : CounterState) (a : CounterAction)
    (h : counterInv s) : counterInv (counterReducer s a) := by
  by_cases h1 : a.type = "INCREMENT"
  · right
    simp [counterReducer, h1, getLast?_append_singleton]
  by_cases h2 : a.type = "DECREMENT"
  · right
    simp [counterReducer, h1, h2, getLast?_append_singleton]
  by_cases h3 : a.type = "RESET"
  · left
    simp [counterReducer, h1, h2, h3, counterInitialState]
  by_cases h4 : a.type = "SET"
  · right
    simp [counterReducer, h1, h2, h3, h4, getLast?_append_singleton]
  · simpa [counterReducer, h1, h2, h3, h4] using h

theorem counterRun_preserves (acts : List CounterAction) :
    ∀ s : CounterState, counterInv s → counterInv (acts.foldl counterReducer s) := by
  induction acts with
  | nil => intro s h; exact h
  | cons a rest ih =>
      intro s h
      exact ih (counterReducer s a) (counterReducer_preserves s a h)

/-- C9: from the initial state every reachable counter state has empty
history or a history whose last entry is the current count; INCREMENT,
DECREMENT and SET append the new count to the history, RESET restores the
initial state, SET without a payload sets the count to 0, and an
unrecognised action tag leaves the state unchanged. -/
theorem counterReducer_history_invariant :
    (∀ acts : List CounterAction,
      counterInv (acts.foldl counterReducer counterInitialState)) ∧
    (∀ (s : CounterState) (p : Option Int),
      counterReducer s { type := "INCREMENT", payload := p } =
        { count := s.count + 1, history := s.history ++ [s.count + 1] }) ∧
    (∀ (s : CounterState) (p : Option Int),
      counterReducer s { type := "DECREMENT", payload := p } =
        { count := s.count - 1, history := s.history ++ [s.count - 1] }) ∧
    (∀ (s : CounterState) (p : Option Int),
      counterReducer s { type := "RESET", payload := p } = counterInitialState) ∧
    (∀ (s : CounterState) (p : Int),
      counterReducer s { type := "SET", payload := some p } =
        { count := p, history := s.history ++ [p] }) ∧
    (∀ s : CounterState,
      counterReducer s { type := "SET", payload := none } =
        { count := 0, history := s.history ++ [0] }) ∧
    (∀ (s : CounterState) (a : CounterAction),
      a.type ≠ "INCREMENT" → a.type ≠ "DECREMENT" → a.type ≠ "RESET" →
      a.type ≠ "SET" → counterReducer s a = s) := by
  refine ⟨?_, ?_, ?_, ?_, ?_, ?_, ?_⟩
  · intro acts
    exact counterRun_preserves acts counterInitialState (Or.inl rfl)
  · intro s p; simp [counterReducer]
  · intro s p; simp [counterReducer]
  · intro s p; simp [counterReducer]
  · intro s p; simp [counterReducer]
  · intro s; simp [counterReducer]
  · intro s a h1 h2 h3 h4
    simp [counterReducer, h1, h2, h3, h4]

theorem counterReducer_history_invariant_witness :
    counterReducer counterInitialState { type := "UNKNOWN", payload := none } =
      counterInitialState :=
  counterReducer_history_invariant.2.2.2.2.2.2 counterInitialState
    { type := "UNKNOWN", payload := none }
    (by decide) (by decide) (by decide) (by decide)

/-! ## Todo reducer (src/hooks/useContextPlayground.tsx, useReducer demo)

TodoState is `{ todos : Todo[], nextId : number }` with
`Todo = { id, text, completed }`.  The TodoAction union has ADD (string
payload), TOGGLE / DELETE (numeric payload) and CLEAR_COMPLETED; the
switch's default case is unreachable for this closed union, so the action
type is embedded as the matching inductive.
-/

structure Todo where
  id : Nat
  text : String
  completed : Bool
deriving DecidableEq, Repr

structure TodoState where
  todos : List Todo
  nextId : Nat
deriving DecidableEq, Repr

inductive TodoAction where
  | add (payload : String)
  | toggle (payload : Nat)
  | delete (payload : Nat)
  | clearCompleted
deriving DecidableEq, Repr

def todoInitialState : TodoState := { todos := [], nextId := 1 }

def todoReducer (state : TodoState) : TodoAction → TodoState
  | TodoAction.add payload =>
      { todos := state.todos ++ [{ id := state.nextId, text := payload, completed := false }],
        nextId := state.nextId + 1 }
  | TodoAction.toggle payload =>
      { state with todos := state.todos.map (fun todo =>
          if todo.id = payload then { todo with completed := !todo.completed } else todo) }
  | TodoAction.delete payload =>
      { state with todos := state.todos.filter (fun todo => todo.id != payload) }
  | TodoAction.clearCompleted =>
      { state with todos := state.todos.filter (fun todo => !todo.completed) }

/-- The id invariant: all todo ids are pairwise distinct and below nextId. -/
def todoInv (s : TodoState) : Prop :=
  (s.todos.map Todo.id).Nodup ∧ ∀ t ∈ s.todos, t.id < s.nextId

theorem todoReducer_toggle_ids (s : TodoState) (n : Nat) :
    (todoReducer s (TodoAction.toggle n)).todos.map Todo.id = s.todos.map Todo.id := by
  simp only [todoReducer, List.map_map]
  refine List.map_congr_left ?_
  intro t _
  by_cases h : t.id = n <;> simp [Function.comp, h]

theorem todoReducer_delete_ids (s : TodoState) (n : Nat) :
    ((todoReducer s (TodoAction.delete n)).todos.map Todo.id).Sublist
      (s.todos.map Todo.id) := by
  simp only [todoReducer]
  exact (List.filter_sublist s.todos).map Todo.id

theorem todoReducer_clear_ids (s : TodoState) :
    ((todoReducer s TodoAction.clearCompleted).todos.map Todo.id).Sublist
      (s.todos.map Todo.id) := by
  simp only [todoReducer]
  exact (List.filter_sublist s.todos).map Todo.id

theorem todoReducer_preserves (s : TodoState) (a : TodoAction)
    (h : todoInv s) : todoInv (todoReducer s a) := by
  obtain ⟨hnd, hlt⟩ := h
  cases a with
  | add payload =>
      constructor
      · simp only [todoReducer, List.map_append, List.map_cons, List.map_nil]
        rw [List.nodup_append]
        refine ⟨hnd, List.nodup_singleton _, ?_⟩
        intro x hx
        simp only [List.mem_singleton]
        intro hx1
        obtain ⟨t, ht, hid⟩ := List.mem_map.mp hx
        subst hx1
        exact absurd (hid ▸ hlt t ht) (lt_irrefl _)
      · intro t ht
        simp only [todoReducer, List.mem_append, List.mem_singleton] at ht
        rcases ht with h1 | h2
        · exact Nat.lt_trans (hlt t h1) (Nat.lt_succ_self _)
        · subst h2
          exact Nat.lt_succ_self _
  | toggle payload =>
      constructor
      · rw [todoReducer_toggle_ids]
        exact hnd
      · intro t ht
        simp only [todoReducer, List.mem_map] at ht
        obtain ⟨u, hu, hut⟩ := ht
        have : t.id = u.id := by
          subst hut
          by_cases h : u.id = payload
          · rw [if_pos h]
          · rw [if_neg h]
        simpa [todoReducer, this] using hlt u hu
  | delete payload =>
      constructor
      · exact (todoReducer_delete_ids s payload).nodup hnd
      · intro t ht
        simp only [todoReducer] at ht ⊢
        exact hlt t (List.mem_of_mem_filter ht)
  | clearCompleted =>
      constructor
      · exact (todoReducer_clear_ids s).nodup hnd
      · intro t ht
        simp only [todoReducer] at ht ⊢
        exact hlt t (List.mem_of_mem_filter ht)

theorem todoRun_preserves (acts : List TodoAction) :
    ∀ s : TodoState, todoInv s → todoInv (acts.foldl todoReducer s) := by
  induction acts with
  | nil => intro s h; exact h
  | cons a rest ih =>
      intro s h
      exact ih (todoReducer s a) (todoReducer_preserves s a h)

/-- C10: from the initial state every reachable todo state has pairwise
distinct ids all below nextId; ADD assigns the current nextId and
increments it, while TOGGLE keeps the id list unchanged and DELETE /
CLEAR_COMPLETED keep nextId and shrink the id list to a sublist (no
surviving id changes). -/
theorem todoReducer_ids_invariant :
    (∀ acts : List TodoAction, todoInv (acts.foldl todoReducer todoInitialState)) ∧
    (∀ (s : TodoState) (payload : String),
      todoReducer s (TodoAction.add payload) =
        { todos := s.todos ++ [{ id := s.nextId, text := payload, completed := false }],
          nextId := s.nextId + 1 }) ∧
    (∀ (s : TodoState) (n : Nat),
      (todoReducer s (TodoAction.toggle n)).nextId = s.nextId ∧
      (todoReducer s (TodoAction.toggle n)).todos.map Todo.id = s.todos.map Todo.id) ∧
    (∀ (s : TodoState) (n : Nat),
      (todoReducer s (TodoAction.delete n)).nextId = s.nextId ∧
      ((todoReducer s (TodoAction.delete n)).todos.map Todo.id).Sublist
        (s.todos.map Todo.id)) ∧
    (∀ s : TodoState,
      (todoReducer s TodoAction.clearCompleted).nextId = s.nextId ∧
      ((todoReducer s TodoAction.clearCompleted).todos.map Todo.id).Sublist
        (s.todos.map Todo.id)) := by
  refine ⟨?_, ?_, ?_, ?_, ?_⟩
  · intro acts
    exact todoRun_preserves acts todoInitialState ⟨List.nodup_nil, by simp [todoInitialState]⟩
  · intro s payload; rfl
  · intro s n
    exact ⟨rfl, todoReducer_toggle_ids s n⟩
  · intro s n
    exact ⟨rfl, todoReducer_delete_ids s n⟩
  · intro s
    exact ⟨rfl, todoReducer_clear_ids s⟩

end HookStudio
